import Mathlib

/-!
Shallow embedding of the Wiederlade-App (src/src/App.tsx, src/src/types.ts).

JavaScript numbers are modelled as rationals (ℚ); `parseFloat` is modelled as
a partial decimal parser `String → Option ℚ` where `none` stands for `NaN`
(the strings produced by an `<input type="number">` element are either valid
finite decimal literals or the empty string, so the finite-decimal fragment is
the reachable one); `Number.prototype.toFixed` is modelled by round-half-away
scaling (`jsToFixedVal` / `toFixedStr`), following ECMA-262.  Browser
`localStorage` is modelled as an optional stored string, and the JSON builtins
(`JSON.stringify` / `JSON.parse`), which are platform collaborators rather
than repository code, are abstracted as explicit function parameters.
-/

set_option allowUnsafeReducibility true

attribute [semireducible] Rat.add Rat.mul Rat.inv Rat.div Rat.sub Rat.neg Rat.blt Rat.normalize Rat.maybeNormalize Rat.ofScientific Rat.floor Rat.ceil

namespace Wiederlade

/-! ### Data model (src/src/types.ts) -/

/-- `CostInputs` from types.ts: all fields are JS numbers, modelled as ℚ. -/
structure CostInputs where
  powderPrice : ℚ
  powderWeight : ℚ
  powderCharge : ℚ
  primerPrice : ℚ
  primerCount : ℚ
  bulletPrice : ℚ
  bulletCount : ℚ
  brassPrice : ℚ
  brassCount : ℚ
  brassLife : ℚ
deriving DecidableEq

/-- `LoadRecord` from types.ts. -/
structure LoadRecord where
  id : String
  name : String
  caliber : String
  bulletWeight : ℚ
  powderType : String
  powderCharge : ℚ
  primerType : String
  date : String
deriving DecidableEq

/-- A detected hit from `AnalysisResult.detectedHits`; `ring` is
`number | string | undefined` in types.ts. -/
structure DetectedHit where
  x : ℚ
  y : ℚ
  ring : Option (String ⊕ ℚ)
deriving DecidableEq

/-- `AnalysisResult` from types.ts; the `rings` string-indexed map is modelled
as an association list. -/
structure AnalysisResult where
  groupSizeMm : ℚ
  groupSizeMoa : Option ℚ
  numberOfHits : ℚ
  confidence : ℚ
  detectedHits : List DetectedHit
  referenceFound : Bool
  rings : Option (List (String × ℚ))
  score : Option ℚ
deriving DecidableEq

/-- types.ts line 41. -/
def GRAINS_PER_KG : ℚ := 15432.3584

/-- types.ts line 42. -/
def GRAINS_PER_GRAM : ℚ := 15.4323584

/-! ### Cost engine (`calculatedCosts`, App.tsx lines 66-83) -/

/-- The record returned by the `useMemo` body of `calculatedCosts`. -/
structure CostBreakdown where
  powder : ℚ
  primer : ℚ
  bullet : ℚ
  brass : ℚ
  total : ℚ
  per100 : ℚ
deriving DecidableEq

/-- App.tsx lines 66-83, the cost computation. -/
def calculatedCosts (costs : CostInputs) : CostBreakdown :=
  let powderCostPerGrain := (costs.powderPrice / costs.powderWeight) / GRAINS_PER_KG
  let powderCost := powderCostPerGrain * costs.powderCharge
  let primerCost := costs.primerPrice / costs.primerCount
  let bulletCost := costs.bulletPrice / costs.bulletCount
  let brassCost := (costs.brassPrice / costs.brassCount) / costs.brassLife
  let total := powderCost + primerCost + bulletCost + brassCost
  { powder := powderCost
    primer := primerCost
    bullet := bulletCost
    brass := brassCost
    total := total
    per100 := total * 100 }

/-- The initial `costs` state (App.tsx lines 33-44). -/
def defaultCosts : CostInputs :=
  { powderPrice := 85
    powderWeight := 1
    powderCharge := 42
    primerPrice := 65
    primerCount := 1000
    bulletPrice := 35
    bulletCount := 100
    brassPrice := 45
    brassCount := 50
    brassLife := 5 }

/-! ### A model of JavaScript `parseFloat` on finite decimal literals -/

/-- Numeric value of a digit character. -/
def digitVal (c : Char) : ℕ := c.toNat - 48

/-- The character for a decimal digit. -/
def digitChar (d : ℕ) : Char :=
  match d with
  | 0 => '0'
  | 1 => '1'
  | 2 => '2'
  | 3 => '3'
  | 4 => '4'
  | 5 => '5'
  | 6 => '6'
  | 7 => '7'
  | 8 => '8'
  | 9 => '9'
  | _ => '0'

/-- Value of a big-endian digit string. -/
def natOfDigits (cs : List Char) : ℕ :=
  cs.foldl (fun a c => 10 * a + digitVal c) 0

/-- The exponent part of a JS number literal (`e`/`E`, optional sign, digits);
a missing or digit-free exponent contributes 0, as in `parseFloat`. -/
def parseExpPart (cs : List Char) : ℤ :=
  match cs with
  | [] => 0
  | c :: t =>
    if c = 'e' ∨ c = 'E' then
      match t with
      | [] => 0
      | d :: u =>
        if d = '-' then -(natOfDigits (u.takeWhile Char.isDigit) : ℤ)
        else if d = '+' then (natOfDigits (u.takeWhile Char.isDigit) : ℤ)
        else (natOfDigits ((d :: u).takeWhile Char.isDigit) : ℤ)
    else 0

/-- Split an optional fraction part (a leading dot followed by digits) off the
remainder of the input; anything else is left for the exponent parser. -/
def splitFrac : List Char → List Char × List Char
  | '.' :: t => (t.takeWhile Char.isDigit, t.dropWhile Char.isDigit)
  | cs => ([], cs)

/-- `parseFloat` after the optional sign: longest digit run, optional dot and
fraction digits, optional exponent; `none` when no digit was consumed (NaN). -/
def parseAfterSign (sgn : ℚ) (cs : List Char) : Option ℚ :=
  if (cs.takeWhile Char.isDigit).isEmpty && (splitFrac (cs.dropWhile Char.isDigit)).1.isEmpty then
    none
  else
    some (sgn
      * ((natOfDigits (cs.takeWhile Char.isDigit) : ℚ)
          + (natOfDigits (splitFrac (cs.dropWhile Char.isDigit)).1 : ℚ)
            / 10 ^ (splitFrac (cs.dropWhile Char.isDigit)).1.length)
      * (10 : ℚ) ^ parseExpPart (splitFrac (cs.dropWhile Char.isDigit)).2)

/-- Dispatch on the optional sign character. -/
def parseFloatAux : List Char → Option ℚ
  | [] => none
  | c :: t =>
    if c = '-' then parseAfterSign (-1) t
    else if c = '+' then parseAfterSign 1 t
    else parseAfterSign 1 (c :: t)

/-- Model of JS `parseFloat` on the finite decimal fragment: leading spaces and
an optional sign, then mantissa and exponent; `none` models `NaN`. -/
def parseFloat (s : String) : Option ℚ :=
  parseFloatAux (s.data.dropWhile (fun c => c = ' '))

/-- Model of the JS expression `v || d` for a `parseFloat` result `v`:
both `NaN` (`none`) and `0` are falsy and fall back to the default. -/
def jsOr (v : Option ℚ) (d : ℚ) : ℚ :=
  match v with
  | none => d
  | some q => if q = 0 then d else q

/-! ### Cost-form `onChange` handlers (App.tsx lines 205-340):
nine fields use `parseFloat(e.target.value) || 0`,
`brassLife` uses `parseFloat(e.target.value) || 1`. -/

def setPowderPrice (costs : CostInputs) (v : String) : CostInputs :=
  { costs with powderPrice := jsOr (parseFloat v) 0 }

def setPowderWeight (costs : CostInputs) (v : String) : CostInputs :=
  { costs with powderWeight := jsOr (parseFloat v) 0 }

def setPowderCharge (costs : CostInputs) (v : String) : CostInputs :=
  { costs with powderCharge := jsOr (parseFloat v) 0 }

def setPrimerPrice (costs : CostInputs) (v : String) : CostInputs :=
  { costs with primerPrice := jsOr (parseFloat v) 0 }

def setPrimerCount (costs : CostInputs) (v : String) : CostInputs :=
  { costs with primerCount := jsOr (parseFloat v) 0 }

def setBulletPrice (costs : CostInputs) (v : String) : CostInputs :=
  { costs with bulletPrice := jsOr (parseFloat v) 0 }

def setBulletCount (costs : CostInputs) (v : String) : CostInputs :=
  { costs with bulletCount := jsOr (parseFloat v) 0 }

def setBrassPrice (costs : CostInputs) (v : String) : CostInputs :=
  { costs with brassPrice := jsOr (parseFloat v) 0 }

def setBrassCount (costs : CostInputs) (v : String) : CostInputs :=
  { costs with brassCount := jsOr (parseFloat v) 0 }

/-- App.tsx line 335: `brassLife: parseFloat(e.target.value) || 1`. -/
def setBrassLife (costs : CostInputs) (v : String) : CostInputs :=
  { costs with brassLife := jsOr (parseFloat v) 1 }

/-! ### A model of `Number.prototype.toFixed` (ECMA-262)

`toFixed(n)` picks the integer `m` minimising `|m / 10^n - x|`, breaking ties
away from zero on the magnitude, and prints `m / 10^n` with exactly `n`
fraction digits.  `jsToFixedInt` is that integer, `jsToFixedVal` the numeric
value of the printed string, and `toFixedStr` the printed string itself
(modelled for `n ≥ 1`, the only precisions the app uses). -/

/-- The scaled integer chosen by `toFixed`: round half away from zero. -/
def jsToFixedInt (n : ℕ) (q : ℚ) : ℤ :=
  if q < 0 then -⌊-q * 10 ^ n + 1 / 2⌋ else ⌊q * 10 ^ n + 1 / 2⌋

/-- The numeric value of `x.toFixed(n)`. -/
def jsToFixedVal (n : ℕ) (q : ℚ) : ℚ :=
  (jsToFixedInt n q : ℚ) / 10 ^ n

/-- Little-endian base-10 digits, with explicit fuel for structural
recursion; `digitsLE v v` is the digit list of `v`. -/
def digitsLE : ℕ → ℕ → List ℕ
  | 0, _ => []
  | fuel + 1, v => if v = 0 then [] else v % 10 :: digitsLE fuel (v / 10)

/-- Value of a little-endian digit list. -/
def ofDigitsLE (l : List ℕ) : ℕ :=
  l.foldr (fun d acc => d + 10 * acc) 0

/-- Big-endian decimal rendering of a natural number (no sign, no padding). -/
def renderNat (v : ℕ) : List Char :=
  if v = 0 then ['0'] else ((digitsLE v v).map digitChar).reverse

/-- Decimal rendering of `v / 10^n` with exactly `n` fraction digits, as
`toFixed` prints it (integer part zero-padded to at least one digit). -/
def renderScaledNat (n : ℕ) (v : ℕ) : List Char :=
  let ds0 := renderNat v
  let ds := List.replicate (n + 1 - ds0.length) '0' ++ ds0
  ds.take (ds.length - n) ++ '.' :: ds.drop (ds.length - n)

/-- The string returned by `x.toFixed(n)` for `n ≥ 1`. -/
def toFixedStr (n : ℕ) (q : ℚ) : String :=
  ⟨(if q < 0 then ['-'] else []) ++ renderScaledNat n (jsToFixedInt n q).natAbs⟩

/-! ### Unit converter (App.tsx lines 47-48 and 85-99) -/

/-- The two linked converter text fields (`convGrains`, `convGrams`). -/
structure ConvState where
  convGrains : String
  convGrams : String
deriving DecidableEq

/-- The initial converter state (App.tsx lines 47-48). -/
def initConv : ConvState :=
  { convGrains := "15.43", convGrams := "1.00" }

/-- App.tsx lines 85-91: always keep the raw text in the grains field; when it
parses, set the grams field to `(num / GRAINS_PER_GRAM).toFixed(4)`. -/
def handleGrainsChange (st : ConvState) (val : String) : ConvState :=
  match parseFloat val with
  | some num => { convGrains := val, convGrams := toFixedStr 4 (num / GRAINS_PER_GRAM) }
  | none => { st with convGrains := val }

/-- App.tsx lines 93-99: always keep the raw text in the grams field; when it
parses, set the grains field to `(num * GRAINS_PER_GRAM).toFixed(2)`. -/
def handleGramsChange (st : ConvState) (val : String) : ConvState :=
  match parseFloat val with
  | some num => { convGrams := val, convGrains := toFixedStr 2 (num * GRAINS_PER_GRAM) }
  | none => { st with convGrams := val }

/-- The numeric content of the grains field produced by `handleGramsChange`
(grams to grains, displayed rounded to 2 decimal places). -/
def gramsToGrains (q : ℚ) : ℚ := jsToFixedVal 2 (q * GRAINS_PER_GRAM)

/-- The numeric content of the grams field produced by `handleGrainsChange`
(grains to grams, displayed rounded to 4 decimal places). -/
def grainsToGrams (q : ℚ) : ℚ := jsToFixedVal 4 (q / GRAINS_PER_GRAM)

/-! ### Load log (App.tsx lines 50-64 and 101-120)

`localStorage` under the key `reloading_loads` is modelled as an optional
stored string; `JSON.stringify` is a platform builtin and is abstracted as an
explicit `stringify` parameter. -/

/-- The in-memory list together with the persisted blob. -/
structure LoadState where
  loads : List LoadRecord
  stored : Option String
deriving DecidableEq

/-- The `newLoad : Partial<LoadRecord>` form state (App.tsx line 52); only the
fields the form binds are listed, all optional. -/
structure NewLoadForm where
  name : Option String := none
  caliber : Option String := none
  bulletWeight : Option ℚ := none
  powderType : Option String := none
  powderCharge : Option ℚ := none
  primerType : Option String := none
deriving DecidableEq

/-- `setNewLoad({})` (App.tsx line 114). -/
def emptyNewLoad : NewLoadForm := {}

/-- JS truthiness of an optional string: `undefined` and `""` are falsy. -/
def jsTruthy (s : Option String) : Bool :=
  match s with
  | none => false
  | some str => !(str == "")

/-- The record literal built inside `addLoad` (App.tsx lines 103-112); the JS
fallbacks `x || ''` and `x || 0` coincide with `getD` here because the
fallback value equals the falsy value it replaces. -/
def mkLoadRecord (form : NewLoadForm) (newId date : String) : LoadRecord :=
  { id := newId
    name := form.name.getD ""
    caliber := form.caliber.getD ""
    bulletWeight := form.bulletWeight.getD 0
    powderType := form.powderType.getD ""
    powderCharge := form.powderCharge.getD 0
    primerType := form.primerType.getD ""
    date := date }

/-- App.tsx lines 61-64: set the list and synchronously rewrite the whole
serialized list into storage. -/
def saveLoads (stringify : List LoadRecord → String)
    (updatedLoads : List LoadRecord) : LoadState :=
  { loads := updatedLoads, stored := some (stringify updatedLoads) }

/-- App.tsx lines 101-116: guard on truthiness of `name` and `caliber`,
prepend the new record, save, and reset the form; otherwise do nothing.
`newId` stands for `crypto.randomUUID()` and `date` for the formatted
creation date. Returns the new `(loads/storage, newLoad)` state. -/
def addLoad (stringify : List LoadRecord → String) (s : LoadState)
    (form : NewLoadForm) (newId date : String) : LoadState × NewLoadForm :=
  if jsTruthy form.name && jsTruthy form.caliber then
    (saveLoads stringify (mkLoadRecord form newId date :: s.loads), emptyNewLoad)
  else
    (s, form)

/-- App.tsx lines 118-120: `saveLoads(loads.filter(l => l.id !== id))`. -/
def deleteLoad (stringify : List LoadRecord → String) (s : LoadState)
    (id : String) : LoadState :=
  saveLoads stringify (s.loads.filter (fun l => l.id != id))

/-- App.tsx lines 54-59, the mount-time `useEffect`: a `null` or empty stored
value is falsy and the list stays `[]`; otherwise `JSON.parse` runs with no
surrounding try/catch, so a parse exception (modelled by `Except.error` of the
abstracted platform `parse`) propagates to the caller. -/
def loadSavedLoads (parse : String → Except String (List LoadRecord)) :
    Option String → Except String (List LoadRecord)
  | none => Except.ok []
  | some s => if s = "" then Except.ok [] else parse s

/-! ### Target-image analysis (App.tsx lines 581-665) -/

/-- The `AnalysisTab` component state (App.tsx lines 582-585). -/
structure AnalysisState where
  selectedImage : Option String
  isAnalyzing : Bool
  result : Option AnalysisResult
  error : Option String
deriving DecidableEq

/-- The literal error message set in the catch branch (App.tsx line 661). -/
def analysisFailMsg : String := "Fehler bei der Analyse. Bitte versuche es erneut."

/-- App.tsx lines 604-665 (`analyzeImage`): no-op without a selected image;
otherwise the external call plus JSON parsing of its response is the one
suspending operation, abstracted as `outcome`.  On success the result is
stored and the error cleared; on failure the error message is set and the
previous `result` is left untouched; `isAnalyzing` ends `false` either way
(the `finally` branch). -/
def analyzeImage (st : AnalysisState) (outcome : Except String AnalysisResult) :
    AnalysisState :=
  match st.selectedImage with
  | none => st
  | some _ =>
    match outcome with
    | Except.ok data => { st with isAnalyzing := false, error := none, result := some data }
    | Except.error _ => { st with isAnalyzing := false, error := some analysisFailMsg }

/-- `analyzeImage` together with the persisted load store: the handler contains
no `localStorage` access and no use of `loads`/`saveLoads`, so its effect on
the combined browser state is confined to the analysis component. -/
def analyzeStep (st : AnalysisState) (store : LoadState)
    (outcome : Except String AnalysisResult) : AnalysisState × LoadState :=
  (analyzeImage st outcome, store)

/-! ### User operation sequences on the load log -/

/-- One user interaction with the load-log tab: editing the new-load form,
clicking save (`addLoad`), or clicking delete (`deleteLoad`). -/
inductive LogOp where
  | setForm (f : NewLoadForm)
  | submit (newId date : String)
  | remove (id : String)

/-- Apply one operation to the (list/storage, form) state. -/
def applyLogOp (stringify : List LoadRecord → String)
    (st : LoadState × NewLoadForm) (op : LogOp) : LoadState × NewLoadForm :=
  match op with
  | LogOp.setForm f => (st.1, f)
  | LogOp.submit newId date => addLoad stringify st.1 st.2 newId date
  | LogOp.remove id => (deleteLoad stringify st.1 id, st.2)

/-- The state with the empty load list and pristine form. -/
def initLogState : LoadState × NewLoadForm :=
  ({ loads := [], stored := none }, emptyNewLoad)

/-- Run a sequence of load-log operations from a starting state. -/
def runLog (stringify : List LoadRecord → String)
    (st : LoadState × NewLoadForm) (ops : List LogOp) : LoadState × NewLoadForm :=
  ops.foldl (applyLogOp stringify) st

/-! ### Helper lemmas: digit rendering and parsing agree -/

theorem digitVal_digitChar {d : ℕ} (h : d < 10) : digitVal (digitChar d) = d := by
  interval_cases d <;> decide

theorem isDigit_digitChar {d : ℕ} (h : d < 10) : (digitChar d).isDigit = true := by
  interval_cases d <;> decide

theorem natOfDigits_foldl (ys : List Char) (a : ℕ) :
    ys.foldl (fun a c => 10 * a + digitVal c) a
      = a * 10 ^ ys.length + ys.foldl (fun a c => 10 * a + digitVal c) 0 := by
  induction ys generalizing a with
  | nil => simp
  | cons c t ih =>
    simp only [List.foldl_cons, List.length_cons]
    rw [ih (10 * a + digitVal c), ih (10 * 0 + digitVal c)]
    ring

theorem natOfDigits_append (xs ys : List Char) :
    natOfDigits (xs ++ ys) = natOfDigits xs * 10 ^ ys.length + natOfDigits ys := by
  unfold natOfDigits
  rw [List.foldl_append, natOfDigits_foldl]

theorem natOfDigits_replicate_zero (z : ℕ) :
    natOfDigits (List.replicate z '0') = 0 := by
  induction z with
  | zero => rfl
  | succ z ih =>
    show natOfDigits ('0' :: List.replicate z '0') = 0
    unfold natOfDigits at ih ⊢
    simpa [digitVal] using ih

theorem ofDigitsLE_digitsLE : ∀ (fuel v : ℕ), v ≤ fuel → ofDigitsLE (digitsLE fuel v) = v := by
  intro fuel
  induction fuel with
  | zero =>
    intro v hv
    have : v = 0 := Nat.le_zero.mp hv
    subst this
    rfl
  | succ f ih =>
    intro v hv
    by_cases h : v = 0
    · subst h; simp [digitsLE, ofDigitsLE]
    · have hlt : v / 10 < v := Nat.div_lt_self (Nat.pos_of_ne_zero h) (by norm_num)
      have hdiv : v / 10 ≤ f := by omega
      simp only [digitsLE, if_neg h, ofDigitsLE, List.foldr_cons]
      have := ih (v / 10) hdiv
      unfold ofDigitsLE at this
      rw [this]
      omega

theorem digitsLE_lt_ten : ∀ (fuel v : ℕ), ∀ d ∈ digitsLE fuel v, d < 10 := by
  intro fuel
  induction fuel with
  | zero => intro v d hd; simp [digitsLE] at hd
  | succ f ih =>
    intro v d hd
    by_cases h : v = 0
    · simp [digitsLE, h] at hd
    · simp only [digitsLE, if_neg h, List.mem_cons] at hd
      rcases hd with hd | hd
      · subst hd; exact Nat.mod_lt _ (by norm_num)
      · exact ih _ _ hd

theorem natOfDigits_revMap : ∀ (l : List ℕ), (∀ d ∈ l, d < 10) →
    natOfDigits ((l.map digitChar).reverse) = ofDigitsLE l := by
  intro l
  induction l with
  | nil => intro _; rfl
  | cons d t ih =>
    intro h
    simp only [List.map_cons, List.reverse_cons]
    rw [natOfDigits_append]
    have hd : d < 10 := h d (List.mem_cons_self d t)
    have ht : ∀ x ∈ t, x < 10 := fun x hx => h x (List.mem_cons_of_mem d hx)
    have h1 : natOfDigits [digitChar d] = d := by
      unfold natOfDigits
      simp [digitVal_digitChar hd]
    rw [ih ht, h1]
    simp only [ofDigitsLE, List.foldr_cons, List.length_singleton]
    ring

theorem natOfDigits_renderNat (v : ℕ) : natOfDigits (renderNat v) = v := by
  by_cases h : v = 0
  · subst h; decide
  · unfold renderNat
    rw [if_neg h, natOfDigits_revMap _ (digitsLE_lt_ten v v), ofDigitsLE_digitsLE v v le_rfl]

theorem renderNat_isDigit (v : ℕ) : ∀ c ∈ renderNat v, c.isDigit = true := by
  unfold renderNat
  by_cases h : v = 0
  · simp only [h, if_pos]
    intro c hc
    simp only [List.mem_singleton] at hc
    subst hc; decide
  · rw [if_neg h]
    intro c hc
    rw [List.mem_reverse, List.mem_map] at hc
    obtain ⟨d, hd, rfl⟩ := hc
    exact isDigit_digitChar (digitsLE_lt_ten v v d hd)

theorem renderNat_ne_nil (v : ℕ) : renderNat v ≠ [] := by
  unfold renderNat
  by_cases h : v = 0
  · simp [h]
  · rw [if_neg h]
    cases v with
    | zero => exact absurd rfl h
    | succ f => simp [digitsLE]

theorem takeWhile_eq_self_of_all {α} (p : α → Bool) :
    ∀ (l : List α), (∀ a ∈ l, p a = true) → l.takeWhile p = l := by
  intro l
  induction l with
  | nil => intro _; rfl
  | cons a t ih =>
    intro h
    rw [List.takeWhile_cons, h a (List.mem_cons_self a t)]
    simp [ih fun x hx => h x (List.mem_cons_of_mem a hx)]

theorem dropWhile_eq_nil_of_all {α} (p : α → Bool) :
    ∀ (l : List α), (∀ a ∈ l, p a = true) → l.dropWhile p = [] := by
  intro l
  induction l with
  | nil => intro _; rfl
  | cons a t ih =>
    intro h
    rw [List.dropWhile_cons, h a (List.mem_cons_self a t)]
    simp [ih fun x hx => h x (List.mem_cons_of_mem a hx)]

theorem takeWhile_append_of_all {α} (p : α → Bool) :
    ∀ (A B : List α), (∀ a ∈ A, p a = true) →
      (A ++ B).takeWhile p = A ++ B.takeWhile p := by
  intro A B
  induction A with
  | nil => intro _; rfl
  | cons a t ih =>
    intro h
    rw [List.cons_append, List.takeWhile_cons, h a (List.mem_cons_self a t)]
    simp [ih fun x hx => h x (List.mem_cons_of_mem a hx)]

theorem dropWhile_append_of_all {α} (p : α → Bool) :
    ∀ (A B : List α), (∀ a ∈ A, p a = true) →
      (A ++ B).dropWhile p = B.dropWhile p := by
  intro A B
  induction A with
  | nil => intro _; rfl
  | cons a t ih =>
    intro h
    rw [List.cons_append, List.dropWhile_cons, h a (List.mem_cons_self a t)]
    simp [ih fun x hx => h x (List.mem_cons_of_mem a hx)]

theorem splitFrac_dot (t : List Char) :
    splitFrac ('.' :: t) = (t.takeWhile Char.isDigit, t.dropWhile Char.isDigit) := rfl

theorem parseAfterSign_renderScaledNat (sgn : ℚ) (n v : ℕ) (hn : 1 ≤ n) :
    parseAfterSign sgn (renderScaledNat n v) = some (sgn * ((v : ℚ) / 10 ^ n)) := by
  set ds : List Char := List.replicate (n + 1 - (renderNat v).length) '0' ++ renderNat v with hds
  have hdig : ∀ c ∈ ds, c.isDigit = true := by
    intro c hc
    rcases List.mem_append.mp hc with h | h
    · rw [List.eq_of_mem_replicate h]; decide
    · exact renderNat_isDigit v c h
  have hlen0 : 1 ≤ (renderNat v).length := List.length_pos.mpr (renderNat_ne_nil v)
  have hlen : n + 1 ≤ ds.length := by
    rw [hds, List.length_append, List.length_replicate]
    omega
  set k := ds.length - n with hk
  have hk1 : 1 ≤ k := by omega
  have hkle : k ≤ ds.length := by omega
  have hA : ∀ c ∈ ds.take k, c.isDigit = true := fun c hc => hdig c (List.take_subset _ _ hc)
  have hB : ∀ c ∈ ds.drop k, c.isDigit = true := fun c hc => hdig c (List.drop_subset _ _ hc)
  have hBlen : (ds.drop k).length = n := by rw [List.length_drop]; omega
  have hAlen : (ds.take k).length = k := by rw [List.length_take]; omega
  have hAempty : (ds.take k).isEmpty = false := by
    cases hAq : ds.take k with
    | nil => rw [hAq] at hAlen; simp at hAlen; omega
    | cons c t => rfl
  have hrsn : renderScaledNat n v = ds.take k ++ '.' :: ds.drop k := rfl
  rw [hrsn]
  unfold parseAfterSign
  rw [takeWhile_append_of_all _ _ _ hA, dropWhile_append_of_all _ _ _ hA]
  have hdot : ('.' : Char).isDigit = false := by decide
  have hdotT : ('.' :: ds.drop k).takeWhile Char.isDigit = [] := by
    simp [List.takeWhile_cons, hdot]
  have hdotD : ('.' :: ds.drop k).dropWhile Char.isDigit = '.' :: ds.drop k := by
    simp [List.dropWhile_cons, hdot]
  rw [hdotT, hdotD, splitFrac_dot]
  rw [takeWhile_eq_self_of_all _ _ hB, dropWhile_eq_nil_of_all _ _ hB]
  simp only [List.append_nil, hAempty, Bool.false_and, Bool.false_eq_true, if_false, hBlen]
  have key : natOfDigits (ds.take k) * 10 ^ n + natOfDigits (ds.drop k) = v := by
    have h1 : natOfDigits ds = v := by
      rw [hds, natOfDigits_append, natOfDigits_replicate_zero, natOfDigits_renderNat]
      ring
    have h2 : natOfDigits (ds.take k ++ ds.drop k) = natOfDigits ds := by
      rw [List.take_append_drop]
    rw [natOfDigits_append, hBlen] at h2
    rw [h2, h1]
  have hpow : ((10 : ℚ) ^ n) ≠ 0 := by positivity
  have hval : (natOfDigits (ds.take k) : ℚ) + (natOfDigits (ds.drop k) : ℚ) / 10 ^ n
      = (v : ℚ) / 10 ^ n := by
    have hcast : (natOfDigits (ds.take k) : ℚ) * 10 ^ n + (natOfDigits (ds.drop k) : ℚ)
        = (v : ℚ) := by exact_mod_cast key
    field_simp
    linarith
  rw [hval]
  have hexp : parseExpPart [] = 0 := rfl
  rw [hexp, zpow_zero, mul_one]

theorem renderScaledNat_head (n v : ℕ) :
    ∃ c t, renderScaledNat n v = c :: t ∧ c.isDigit = true := by
  set ds : List Char := List.replicate (n + 1 - (renderNat v).length) '0' ++ renderNat v with hds
  have hdig : ∀ c ∈ ds, c.isDigit = true := by
    intro c hc
    rcases List.mem_append.mp hc with h | h
    · rw [List.eq_of_mem_replicate h]; decide
    · exact renderNat_isDigit v c h
  have hlen0 : 1 ≤ (renderNat v).length := List.length_pos.mpr (renderNat_ne_nil v)
  have hlen : n + 1 ≤ ds.length := by
    rw [hds, List.length_append, List.length_replicate]
    omega
  have hAlen : (ds.take (ds.length - n)).length = ds.length - n := by
    rw [List.length_take]
    omega
  have hrsn : renderScaledNat n v
      = ds.take (ds.length - n) ++ '.' :: ds.drop (ds.length - n) := rfl
  cases hAq : ds.take (ds.length - n) with
  | nil => rw [hAq] at hAlen; simp at hAlen; omega
  | cons c t =>
    refine ⟨c, t ++ '.' :: ds.drop (ds.length - n), ?_, ?_⟩
    · rw [hrsn, hAq, List.cons_append]
    · have hcmem : c ∈ ds.take (ds.length - n) := by
        rw [hAq]; exact List.mem_cons_self c t
      exact hdig c (List.take_subset _ _ hcmem)

theorem cast_natAbs_rat (z : ℤ) : ((z.natAbs : ℕ) : ℚ) = |(z : ℚ)| := by
  simp [Int.cast_natAbs]

theorem parseFloat_toFixedStr (n : ℕ) (hn : 1 ≤ n) (q : ℚ) :
    parseFloat (toFixedStr n q) = some (jsToFixedVal n q) := by
  obtain ⟨c, t, hct, hcd⟩ := renderScaledNat_head n (jsToFixedInt n q).natAbs
  have hcspace : ¬ c = ' ' := fun h => by rw [h] at hcd; exact absurd hcd (by decide)
  have hcminus : ¬ c = '-' := fun h => by rw [h] at hcd; exact absurd hcd (by decide)
  have hcplus : ¬ c = '+' := fun h => by rw [h] at hcd; exact absurd hcd (by decide)
  have hpow : (0:ℚ) < 10 ^ n := by positivity
  by_cases hq : q < 0
  · have hdata : (toFixedStr n q).data
        = '-' :: renderScaledNat n (jsToFixedInt n q).natAbs := by
      simp [toFixedStr, if_pos hq]
    unfold parseFloat
    rw [hdata, List.dropWhile_cons, if_neg (by simp), parseFloatAux, if_pos rfl,
      parseAfterSign_renderScaledNat _ _ _ hn]
    have hfloor : 0 ≤ ⌊-q * 10 ^ n + 1 / 2⌋ := by
      refine Int.floor_nonneg.mpr ?_
      have hq' : 0 < -q := neg_pos.mpr hq
      nlinarith
    have hint : jsToFixedInt n q = -⌊-q * 10 ^ n + 1 / 2⌋ := by
      rw [jsToFixedInt, if_pos hq]
    rw [jsToFixedVal]
    congr 1
    rw [cast_natAbs_rat, hint]
    push_cast
    rw [abs_neg, abs_of_nonneg (by exact_mod_cast hfloor : (0:ℚ) ≤ _)]
    ring
  · have hdata : (toFixedStr n q).data
        = renderScaledNat n (jsToFixedInt n q).natAbs := by
      simp [toFixedStr, if_neg hq]
    unfold parseFloat
    rw [hdata, hct, List.dropWhile_cons, if_neg (by simpa using hcspace), parseFloatAux,
      if_neg hcminus, if_neg hcplus, ← hct, parseAfterSign_renderScaledNat _ _ _ hn]
    have hq' : 0 ≤ q := not_lt.mp hq
    have hfloor : 0 ≤ ⌊q * 10 ^ n + 1 / 2⌋ := by
      refine Int.floor_nonneg.mpr ?_
      nlinarith
    have hint : jsToFixedInt n q = ⌊q * 10 ^ n + 1 / 2⌋ := by
      rw [jsToFixedInt, if_neg hq]
    rw [jsToFixedVal]
    congr 1
    rw [cast_natAbs_rat, hint]
    rw [abs_of_nonneg (by exact_mod_cast hfloor : (0:ℚ) ≤ _)]
    ring

theorem abs_jsToFixedVal_sub (n : ℕ) (q : ℚ) :
    |jsToFixedVal n q - q| ≤ 1 / (2 * 10 ^ n) := by
  have hpow : (0:ℚ) < 10 ^ n := by positivity
  have key : |(jsToFixedInt n q : ℚ) - q * 10 ^ n| ≤ 1 / 2 := by
    unfold jsToFixedInt
    by_cases hq : q < 0
    · rw [if_pos hq]
      have h1 : ((⌊-q * 10 ^ n + 1 / 2⌋ : ℤ) : ℚ) ≤ -q * 10 ^ n + 1 / 2 := Int.floor_le _
      have h2 : -q * 10 ^ n + 1 / 2 - 1 < ((⌊-q * 10 ^ n + 1 / 2⌋ : ℤ) : ℚ) :=
        Int.sub_one_lt_floor _
      push_cast
      rw [abs_le]
      constructor <;> linarith
    · rw [if_neg hq]
      have h1 : ((⌊q * 10 ^ n + 1 / 2⌋ : ℤ) : ℚ) ≤ q * 10 ^ n + 1 / 2 := Int.floor_le _
      have h2 : q * 10 ^ n + 1 / 2 - 1 < ((⌊q * 10 ^ n + 1 / 2⌋ : ℤ) : ℚ) :=
        Int.sub_one_lt_floor _
      rw [abs_le]
      constructor <;> linarith
  have heq : jsToFixedVal n q - q = ((jsToFixedInt n q : ℚ) - q * 10 ^ n) / 10 ^ n := by
    unfold jsToFixedVal
    field_simp
    ring
  rw [heq, abs_div, abs_of_pos hpow]
  calc |(jsToFixedInt n q : ℚ) - q * 10 ^ n| / 10 ^ n
      ≤ (1 / 2) / 10 ^ n := by gcongr
    _ = 1 / (2 * 10 ^ n) := by rw [div_div]

/-! ### Helper lemmas: load-log list operations -/

theorem length_filter_not_of_countP_eq_one {α} (p : α → Bool) :
    ∀ (l : List α), l.countP p = 1 → (l.filter (fun a => !(p a))).length + 1 = l.length := by
  intro l
  induction l with
  | nil => intro h; simp [List.countP_nil] at h
  | cons a t ih =>
    intro h
    rw [List.countP_cons] at h
    rw [List.filter_cons]
    cases hpa : p a with
    | true =>
      rw [hpa, if_pos rfl] at h
      have h0 : t.countP p = 0 := by omega
      have hall : ∀ x ∈ t, ¬ p x = true := List.countP_eq_zero.mp h0
      have hself : t.filter (fun a => !(p a)) = t := by
        apply List.filter_eq_self.mpr
        intro x hx
        simp [hall x hx]
      simp [hpa, hself]
    | false =>
      rw [hpa] at h
      simp only [Bool.false_eq_true, if_neg, if_false] at h
      have ht : t.countP p = 1 := by omega
      have := ih ht
      simp only [hpa, Bool.not_false, if_pos, List.length_cons]
      omega

/-- The invariant of C10: every stored record has a non-empty name and a
non-empty caliber. -/
def goodLoads (l : List LoadRecord) : Prop :=
  ∀ r ∈ l, ¬ r.name = "" ∧ ¬ r.caliber = ""

theorem jsTruthy_getD {o : Option String} (h : jsTruthy o = true) : ¬ (o.getD "") = "" := by
  cases o with
  | none => simp [jsTruthy] at h
  | some s =>
    simp only [jsTruthy, Bool.not_eq_true'] at h
    simpa [Option.getD] using h

theorem applyLogOp_goodLoads (stringify : List LoadRecord → String)
    (st : LoadState × NewLoadForm) (op : LogOp)
    (h : goodLoads st.1.loads) : goodLoads (applyLogOp stringify st op).1.loads := by
  cases op with
  | setForm f => exact h
  | submit newId date =>
    simp only [applyLogOp, addLoad]
    by_cases hg : (jsTruthy st.2.name && jsTruthy st.2.caliber) = true
    · rw [if_pos hg]
      intro r hr
      rcases List.mem_cons.mp hr with hr | hr
      · subst hr
        have hab := hg
        rw [Bool.and_eq_true] at hab
        obtain ⟨hn, hc⟩ := hab
        exact ⟨jsTruthy_getD hn, jsTruthy_getD hc⟩
      · exact h r hr
    · rw [if_neg hg]
      exact h
  | remove id =>
    simp only [applyLogOp, deleteLoad, saveLoads]
    intro r hr
    exact h r (List.mem_filter.mp hr).1

theorem runLog_goodLoads_aux (stringify : List LoadRecord → String) :
    ∀ (ops : List LogOp) (st : LoadState × NewLoadForm),
      goodLoads st.1.loads → goodLoads (runLog stringify st ops).1.loads := by
  intro ops
  induction ops with
  | nil => intro st h; exact h
  | cons op t ih =>
    intro st h
    unfold runLog
    rw [List.foldl_cons]
    exact ih (applyLogOp stringify st op) (applyLogOp_goodLoads stringify st op h)

/-- Sample record used in concrete witnesses. -/
def sampleLoadA : LoadRecord :=
  ⟨"a", "L1", ".308 Win", 147, "N140", 40, "CCI BR2", "1.1.2026"⟩

/-- Second sample record used in concrete witnesses. -/
def sampleLoadB : LoadRecord :=
  ⟨"b", "L2", "9mm Luger", 124, "N320", 4, "SP", "2.1.2026"⟩

/-! ### Claim theorems -/

/-- C1: for every `CostInputs` value, `calculatedCosts` returns a breakdown
with `powder = ((powderPrice / powderWeight) / 15432.3584) * powderCharge`,
`primer = primerPrice / primerCount`, `bullet = bulletPrice / bulletCount`,
`brass = (brassPrice / brassCount) / brassLife`, `total` the sum of the four
component costs and `per100 = total * 100`, exactly. -/
theorem calculatedCosts_formulas (c : CostInputs) :
    (calculatedCosts c).powder
        = ((c.powderPrice / c.powderWeight) / 15432.3584) * c.powderCharge ∧
    (calculatedCosts c).primer = c.primerPrice / c.primerCount ∧
    (calculatedCosts c).bullet = c.bulletPrice / c.bulletCount ∧
    (calculatedCosts c).brass = (c.brassPrice / c.brassCount) / c.brassLife ∧
    (calculatedCosts c).total = (calculatedCosts c).powder + (calculatedCosts c).primer
        + (calculatedCosts c).bullet + (calculatedCosts c).brass ∧
    (calculatedCosts c).per100 = (calculatedCosts c).total * 100 :=
  ⟨rfl, rfl, rfl, rfl, rfl, rfl⟩

/-- C2 counterexample: the claim says every numeric cost field, including
`brassLife`, treats a non-parsing input as 0; but the `brassLife` handler
(App.tsx line 335 `parseFloat(e.target.value) || 1`) yields 1, not 0. -/
theorem setBrassLife_nonparse_counterexample :
    parseFloat "x" = none ∧ (setBrassLife defaultCosts "x").brassLife = 1 ∧
      ¬ (setBrassLife defaultCosts "x").brassLife = 0 := by
  decide

/-- C2 (amended): a non-parsing input string is substituted with 0 for the nine
price/weight/charge/count fields, and with 1 for `brassLife`, before the cost
formulas are applied. -/
theorem setCost_nonparse_defaults (c : CostInputs) (s : String)
    (h : parseFloat s = none) :
    (setPowderPrice c s).powderPrice = 0 ∧
    (setPowderWeight c s).powderWeight = 0 ∧
    (setPowderCharge c s).powderCharge = 0 ∧
    (setPrimerPrice c s).primerPrice = 0 ∧
    (setPrimerCount c s).primerCount = 0 ∧
    (setBulletPrice c s).bulletPrice = 0 ∧
    (setBulletCount c s).bulletCount = 0 ∧
    (setBrassPrice c s).brassPrice = 0 ∧
    (setBrassCount c s).brassCount = 0 ∧
    (setBrassLife c s).brassLife = 1 := by
  simp [setPowderPrice, setPowderWeight, setPowderCharge, setPrimerPrice, setPrimerCount,
    setBulletPrice, setBulletCount, setBrassPrice, setBrassCount, setBrassLife, jsOr, h]

/-- Witness for C2 (amended) at the concrete non-parsing input `"abc"`. -/
theorem setCost_nonparse_defaults_witness :
    (setPowderPrice defaultCosts "abc").powderPrice = 0 ∧
    (setPowderWeight defaultCosts "abc").powderWeight = 0 ∧
    (setPowderCharge defaultCosts "abc").powderCharge = 0 ∧
    (setPrimerPrice defaultCosts "abc").primerPrice = 0 ∧
    (setPrimerCount defaultCosts "abc").primerCount = 0 ∧
    (setBulletPrice defaultCosts "abc").bulletPrice = 0 ∧
    (setBulletCount defaultCosts "abc").bulletCount = 0 ∧
    (setBrassPrice defaultCosts "abc").brassPrice = 0 ∧
    (setBrassCount defaultCosts "abc").brassCount = 0 ∧
    (setBrassLife defaultCosts "abc").brassLife = 1 :=
  setCost_nonparse_defaults defaultCosts "abc" (by decide)

/-- C3: the mount-time `useEffect` (App.tsx lines 54-59) calls `JSON.parse`
with no surrounding try/catch, so when the stored value is non-empty and the
platform JSON parse rejects it, the exception propagates instead of falling
back to the empty list as the spec requires. -/
theorem loadSavedLoads_error_propagates
    (parse : String → Except String (List LoadRecord)) (s e : String)
    (hs : ¬ s = "") (hp : parse s = Except.error e) :
    loadSavedLoads parse (some s) = Except.error e := by
  simp only [loadSavedLoads]
  rw [if_neg hs, hp]

/-- Witness for C3 at the concrete malformed stored value `"not json"`. -/
theorem loadSavedLoads_error_propagates_witness :
    loadSavedLoads (fun _ => Except.error "SyntaxError") (some "not json")
      = Except.error "SyntaxError" :=
  loadSavedLoads_error_propagates (fun _ => Except.error "SyntaxError")
    "not json" "SyntaxError" (by decide) rfl

/-- C4 counterexample: for x = 0.01 grams the round trip
`grains_to_grams(grams_to_grains(x))` returns 0.0097, which differs from x by
0.0003 — more than one unit in the 4th (displayed) decimal place of the grams
field, so the round trip does not hold within the 4-decimal display
tolerance. -/
theorem converter_roundtrip_counterexample :
    grainsToGrams (gramsToGrains (1 / 100)) = 97 / 10000 ∧
      |grainsToGrams (gramsToGrains (1 / 100)) - 1 / 100| > 1 / 10000 := by
  decide

/-- C4 (amended): for every positive x the round trip differs from x by at
most half an ulp of the 2-decimal grains rounding carried back through the
conversion plus half an ulp of the 4-decimal grams rounding, i.e.
`1/20000 + 1/(200 * GRAINS_PER_GRAM)` (≈ 0.000374); the 2-decimal rounding of
the grains intermediate dominates, so the guarantee is coarser than one unit
in the 4th decimal place. -/
theorem converter_roundtrip_bound (x : ℚ) (hx : 0 < x) :
    |grainsToGrams (gramsToGrains x) - x| ≤ 1 / 20000 + 1 / (200 * GRAINS_PER_GRAM) := by
  have hG : (0:ℚ) < GRAINS_PER_GRAM := by decide
  have h1 : |grainsToGrams (gramsToGrains x) - gramsToGrains x / GRAINS_PER_GRAM|
      ≤ 1 / 20000 := by
    have hb := abs_jsToFixedVal_sub 4 (gramsToGrains x / GRAINS_PER_GRAM)
    have he : (1:ℚ) / (2 * 10 ^ 4) = 1 / 20000 := by norm_num
    rw [he] at hb
    exact hb
  have h2 : |gramsToGrains x - x * GRAINS_PER_GRAM| ≤ 1 / 200 := by
    have hb := abs_jsToFixedVal_sub 2 (x * GRAINS_PER_GRAM)
    have he : (1:ℚ) / (2 * 10 ^ 2) = 1 / 200 := by norm_num
    rw [he] at hb
    exact hb
  have h3 : |gramsToGrains x / GRAINS_PER_GRAM - x| ≤ (1 / 200) / GRAINS_PER_GRAM := by
    have hrw : gramsToGrains x / GRAINS_PER_GRAM - x
        = (gramsToGrains x - x * GRAINS_PER_GRAM) / GRAINS_PER_GRAM := by
      field_simp
      ring
    rw [hrw, abs_div, abs_of_pos hG]
    gcongr
  calc |grainsToGrams (gramsToGrains x) - x|
      ≤ |grainsToGrams (gramsToGrains x) - gramsToGrains x / GRAINS_PER_GRAM|
        + |gramsToGrains x / GRAINS_PER_GRAM - x| := abs_sub_le _ _ _
    _ ≤ 1 / 20000 + (1 / 200) / GRAINS_PER_GRAM := add_le_add h1 h3
    _ = 1 / 20000 + 1 / (200 * GRAINS_PER_GRAM) := by rw [div_div]

/-- Witness for C4 (amended) at the concrete positive input x = 1. -/
theorem converter_roundtrip_bound_witness :
    |grainsToGrams (gramsToGrains 1) - 1| ≤ 1 / 20000 + 1 / (200 * GRAINS_PER_GRAM) :=
  converter_roundtrip_bound 1 (by decide)

/-- C5: when the input string parses as n, editing the grains field keeps the
raw string and sets the grams field to `n / 15.4323584` rounded to 4 decimal
places, and editing the grams field keeps the raw string and sets the grains
field to `n * 15.4323584` rounded to 2 decimal places. -/
theorem handleChange_valid_input (st : ConvState) (val : String) (n : ℚ)
    (h : parseFloat val = some n) :
    (handleGrainsChange st val).convGrains = val ∧
    parseFloat (handleGrainsChange st val).convGrams
        = some (jsToFixedVal 4 (n / GRAINS_PER_GRAM)) ∧
    (handleGramsChange st val).convGrams = val ∧
    parseFloat (handleGramsChange st val).convGrains
        = some (jsToFixedVal 2 (n * GRAINS_PER_GRAM)) := by
  have hg : handleGrainsChange st val
      = { convGrains := val, convGrams := toFixedStr 4 (n / GRAINS_PER_GRAM) } := by
    simp [handleGrainsChange, h]
  have hm : handleGramsChange st val
      = { convGrams := val, convGrains := toFixedStr 2 (n * GRAINS_PER_GRAM) } := by
    simp [handleGramsChange, h]
  rw [hg, hm]
  exact ⟨rfl, parseFloat_toFixedStr 4 (by norm_num) _, rfl,
    parseFloat_toFixedStr 2 (by norm_num) _⟩

/-- Witness for C5 at the concrete input `"2"` (which parses as 2). -/
theorem handleChange_valid_input_witness :
    (handleGrainsChange initConv "2").convGrains = "2" ∧
    parseFloat (handleGrainsChange initConv "2").convGrams
        = some (jsToFixedVal 4 (2 / GRAINS_PER_GRAM)) ∧
    (handleGramsChange initConv "2").convGrams = "2" ∧
    parseFloat (handleGramsChange initConv "2").convGrains
        = some (jsToFixedVal 2 (2 * GRAINS_PER_GRAM)) :=
  handleChange_valid_input initConv "2" 2 (by decide)

/-- C6: when the input string fails to parse, the edited converter field takes
exactly the raw string and the other field is left unchanged. -/
theorem handleChange_invalid_input (st : ConvState) (val : String)
    (h : parseFloat val = none) :
    handleGrainsChange st val = { st with convGrains := val } ∧
    handleGramsChange st val = { st with convGrams := val } := by
  refine ⟨?_, ?_⟩
  · simp [handleGrainsChange, h]
  · simp [handleGramsChange, h]

/-- Witness for C6 at the concrete non-parsing input `"e"`. -/
theorem handleChange_invalid_input_witness :
    handleGrainsChange initConv "e" = { initConv with convGrains := "e" } ∧
    handleGramsChange initConv "e" = { initConv with convGrams := "e" } :=
  handleChange_invalid_input initConv "e" (by decide)

/-- C7: `addLoad` with a falsy (absent or empty) name or caliber changes
nothing at all; with both truthy it prepends the new record to the list and
persists the whole new list immediately. -/
theorem addLoad_spec (stringify : List LoadRecord → String) (s : LoadState)
    (form : NewLoadForm) (newId date : String) :
    ((jsTruthy form.name = false ∨ jsTruthy form.caliber = false) →
      addLoad stringify s form newId date = (s, form)) ∧
    (jsTruthy form.name = true → jsTruthy form.caliber = true →
      (addLoad stringify s form newId date).1.loads
          = mkLoadRecord form newId date :: s.loads ∧
      (addLoad stringify s form newId date).1.stored
          = some (stringify (mkLoadRecord form newId date :: s.loads))) := by
  constructor
  · intro h
    have hg : (jsTruthy form.name && jsTruthy form.caliber) = false := by
      rcases h with h | h <;> simp [h]
    simp [addLoad, hg]
  · intro h1 h2
    simp [addLoad, h1, h2, saveLoads]

/-- Witness for C7: an empty form changes nothing; a filled form prepends. -/
theorem addLoad_spec_witness :
    addLoad (fun _ => "[]") { loads := [], stored := none } emptyNewLoad "id1" "d1"
        = ({ loads := [], stored := none }, emptyNewLoad) ∧
    (addLoad (fun _ => "[]") { loads := [], stored := none }
        { name := some "Target Load", caliber := some ".308 Win" } "id1" "d1").1.loads
      = mkLoadRecord { name := some "Target Load", caliber := some ".308 Win" } "id1" "d1"
          :: ([] : List LoadRecord) :=
  ⟨(addLoad_spec (fun _ => "[]") { loads := [], stored := none } emptyNewLoad "id1" "d1").1
      (Or.inl (by decide)),
    ((addLoad_spec (fun _ => "[]") { loads := [], stored := none }
        { name := some "Target Load", caliber := some ".308 Win" } "id1" "d1").2
      (by decide) (by decide)).1⟩

/-- C8: when exactly one stored record carries the given id, `deleteLoad`
removes exactly one entry, the result contains no record with that id, and the
relative order of the remaining records is preserved. -/
theorem deleteLoad_spec (stringify : List LoadRecord → String) (s : LoadState)
    (id : String) (h : s.loads.countP (fun r => r.id == id) = 1) :
    (deleteLoad stringify s id).loads.length + 1 = s.loads.length ∧
    (∀ r ∈ (deleteLoad stringify s id).loads, ¬ r.id = id) ∧
    (deleteLoad stringify s id).loads.Sublist s.loads := by
  refine ⟨?_, ?_, ?_⟩
  · have hlen := length_filter_not_of_countP_eq_one (fun r : LoadRecord => r.id == id) s.loads h
    simpa [deleteLoad, saveLoads, bne] using hlen
  · intro r hr
    have hr' : r ∈ s.loads ∧ ¬ r.id = id := by
      simpa [deleteLoad, saveLoads, List.mem_filter] using hr
    exact hr'.2
  · exact List.filter_sublist s.loads

/-- Witness for C8 on a concrete two-record list where id "a" occurs once. -/
theorem deleteLoad_spec_witness :
    (deleteLoad (fun _ => "[]") { loads := [sampleLoadA, sampleLoadB], stored := none }
        "a").loads.length + 1 = ([sampleLoadA, sampleLoadB] : List LoadRecord).length ∧
    (∀ r ∈ (deleteLoad (fun _ => "[]")
        { loads := [sampleLoadA, sampleLoadB], stored := none } "a").loads, ¬ r.id = "a") ∧
    (deleteLoad (fun _ => "[]") { loads := [sampleLoadA, sampleLoadB], stored := none }
        "a").loads.Sublist [sampleLoadA, sampleLoadB] :=
  deleteLoad_spec (fun _ => "[]") { loads := [sampleLoadA, sampleLoadB], stored := none }
    "a" (by decide)

/-- C9: when an image is selected and the analysis call fails, afterwards the
error state holds the (non-empty) failure message, `result` stays `none`
(given it was `none` when the call began), `selectedImage` is unchanged, and
the persisted load store is untouched. -/
theorem analyzeStep_error_spec (st : AnalysisState) (store : LoadState)
    (img e : String) (himg : st.selectedImage = some img) (hres : st.result = none) :
    (analyzeStep st store (Except.error e)).1.error = some analysisFailMsg ∧
    ¬ analysisFailMsg = "" ∧
    (analyzeStep st store (Except.error e)).1.result = none ∧
    (analyzeStep st store (Except.error e)).1.selectedImage = st.selectedImage ∧
    (analyzeStep st store (Except.error e)).2 = store := by
  have hstep : analyzeStep st store (Except.error e)
      = ({ st with isAnalyzing := false, error := some analysisFailMsg }, store) := by
    simp [analyzeStep, analyzeImage, himg]
  rw [hstep]
  exact ⟨rfl, by decide, hres, rfl, rfl⟩

/-- Witness for C9 at a concrete failing call on a concrete state. -/
theorem analyzeStep_error_spec_witness :
    (analyzeStep ⟨some "data:image/jpeg;base64,AAA", true, none, none⟩
        { loads := [sampleLoadA], stored := none } (Except.error "network")).1.error
      = some analysisFailMsg ∧
    ¬ analysisFailMsg = "" ∧
    (analyzeStep ⟨some "data:image/jpeg;base64,AAA", true, none, none⟩
        { loads := [sampleLoadA], stored := none } (Except.error "network")).1.result = none ∧
    (analyzeStep ⟨some "data:image/jpeg;base64,AAA", true, none, none⟩
        { loads := [sampleLoadA], stored := none } (Except.error "network")).1.selectedImage
      = (⟨some "data:image/jpeg;base64,AAA", true, none, none⟩ : AnalysisState).selectedImage ∧
    (analyzeStep ⟨some "data:image/jpeg;base64,AAA", true, none, none⟩
        { loads := [sampleLoadA], stored := none } (Except.error "network")).2
      = { loads := [sampleLoadA], stored := none } :=
  analyzeStep_error_spec ⟨some "data:image/jpeg;base64,AAA", true, none, none⟩
    { loads := [sampleLoadA], stored := none } "data:image/jpeg;base64,AAA" "network" rfl rfl

/-- C10: starting from the empty load list, after any sequence of form edits,
`addLoad` submissions and `deleteLoad` removals, every stored record has a
non-empty name and a non-empty caliber. -/
theorem runLog_goodLoads (stringify : List LoadRecord → String) (ops : List LogOp) :
    ∀ r ∈ (runLog stringify initLogState ops).1.loads,
      ¬ r.name = "" ∧ ¬ r.caliber = "" :=
  runLog_goodLoads_aux stringify ops initLogState
    (fun r hr => absurd hr (List.not_mem_nil r))

/-- Witness for C10 on a concrete submit sequence producing one record. -/
theorem runLog_goodLoads_witness :
    ¬ (mkLoadRecord { name := some "Target Load", caliber := some ".308 Win" }
        "id1" "d1").name = "" ∧
    ¬ (mkLoadRecord { name := some "Target Load", caliber := some ".308 Win" }
        "id1" "d1").caliber = "" :=
  runLog_goodLoads (fun _ => "[]")
    [LogOp.setForm { name := some "Target Load", caliber := some ".308 Win" },
      LogOp.submit "id1" "d1"]
    (mkLoadRecord { name := some "Target Load", caliber := some ".308 Win" } "id1" "d1")
    (by decide)

end Wiederlade
